import Mathlib

/-!
Verification of the benthos in-memory buffer agent (package buffer, type
`Memory`) and of the fallback output router, against the natural-language
specification of the repository.

The Go code is shallowly embedded: the buffer's queue is a `List` of
messages, the Go `int` fields `used` and `limit` are `Int`, and a message
part is modelled by the only attribute the buffer reads from it, its slice
capacity (`cap(msg.Parts[i])`), together with its byte contents so that
distinct messages stay distinguishable.  The concurrent control loops
(`inputLoop`, `outputLoop`, `loop`) are embedded as labelled step functions
on explicit state records, one step per loop iteration event; channel sends
of producer responses are collected as explicit output lists.
-/

/-- One message part: an opaque byte blob plus the capacity of its backing
Go slice.  The buffer only ever reads `cap`. -/
structure MsgPart where
  data : List Nat
  cap : Nat
deriving DecidableEq, Repr

/-- A message: an ordered sequence of parts (types.Message). -/
structure Message where
  parts : List MsgPart
deriving DecidableEq, Repr

/-- The byte size the buffer accounts for a message: the sum of the
capacities of its parts (`size += cap(msg.Parts[i])`). -/
def msgSize (msg : Message) : Nat :=
  (msg.parts.map MsgPart.cap).sum

/-- Go error values used by the buffer package.  `errOther` stands for an
arbitrary downstream error value, compared by identity. -/
inductive GoError where
  | ErrOutOfBounds
  | ErrBufferReachedLimit
  | ErrAlreadyStarted
  | errOther (id : Nat)
deriving DecidableEq, Repr

/-- A types.Response as observed through `res.Error()`: `none` is the
success response `NewSimpleResponse(nil)`, `some e` a failure. -/
abbrev Response := Option GoError

/-- The Memory buffered agent's mutable state: the FIFO queue, the byte
limit, the running byte total, and the two externally assigned channels
(modelled by opaque channel identities, `none` = Go nil). -/
structure Memory where
  buffer : List Message
  limit : Int
  used : Int
  messagesIn : Option Nat
  responsesIn : Option Nat
deriving DecidableEq, Repr

/-- NewMemory: fresh buffer with the given limit, empty queue, zero usage,
no channels assigned. -/
def NewMemory (limit : Int) : Memory :=
  { buffer := [], limit := limit, used := 0
    messagesIn := none, responsesIn := none }

/-- Memory.shiftMessage: if the queue is empty do nothing, otherwise
recompute the head's size, subtract it from `used` and drop the head. -/
def Memory.shiftMessage (m : Memory) : Memory :=
  match m.buffer with
  | [] => m
  | msg :: rest =>
      { m with used := m.used - (msgSize msg : Int), buffer := rest }

/-- Memory.nextMessage: peek at the head of the queue, returning
ErrOutOfBounds when empty.  The state is returned unchanged to reflect
that the Go method only reads under the lock. -/
def Memory.nextMessage (m : Memory) : Memory × Except GoError Message :=
  match m.buffer with
  | [] => (m, Except.error GoError.ErrOutOfBounds)
  | msg :: _ => (m, Except.ok msg)

/-- Memory.pushMessage: compute the message size, add it to `used`, append
the message at the tail, and report whether `used` now exceeds `limit`. -/
def Memory.pushMessage (m : Memory) (msg : Message) : Memory × Bool :=
  let used2 := m.used + (msgSize msg : Int)
  ({ m with used := used2, buffer := m.buffer ++ [msg] },
   decide (used2 > m.limit))

/-- Memory.limitReached: whether `used` currently exceeds `limit`. -/
def Memory.limitReached (m : Memory) : Bool :=
  decide (m.used > m.limit)

/-- Memory.StartReceiving: assign the inbound message channel, failing
with ErrAlreadyStarted (and leaving the state unchanged) when one is
already assigned. -/
def Memory.StartReceiving (m : Memory) (msgs : Nat) : Memory × Option GoError :=
  match m.messagesIn with
  | some _ => (m, some GoError.ErrAlreadyStarted)
  | none => ({ m with messagesIn := some msgs }, none)

/-- Memory.StartListening: assign the inbound response channel, failing
with ErrAlreadyStarted (and leaving the state unchanged) when one is
already assigned. -/
def Memory.StartListening (m : Memory) (responses : Nat) : Memory × Option GoError :=
  match m.responsesIn with
  | some _ => (m, some GoError.ErrAlreadyStarted)
  | none => ({ m with responsesIn := some responses }, none)

/-- Push a whole sequence of messages, discarding the over-limit flags:
the producer-only view of a run with no intervening consumption. -/
def pushAll (m : Memory) (ms : List Message) : Memory :=
  ms.foldl (fun s msg => (s.pushMessage msg).1) m

/-- Fuelled drain loop: repeatedly peek with nextMessage and dequeue with
shiftMessage, collecting the returned messages, until nextMessage reports
ErrOutOfBounds. -/
def drainFuel : Nat → Memory → List Message
  | 0, _ => []
  | fuel + 1, m =>
      match (m.nextMessage).2 with
      | Except.error _ => []
      | Except.ok msg => msg :: drainFuel fuel m.shiftMessage

/-- Drain the buffer completely via nextMessage/shiftMessage. -/
def drain (m : Memory) : List Message :=
  drainFuel m.buffer.length m

/-- States of the Memory buffer reachable from NewMemory by any sequence
of pushMessage, nextMessage and shiftMessage calls. -/
inductive MemReach (limit : Int) : Memory → Prop where
  | init : MemReach limit (NewMemory limit)
  | push (m : Memory) (msg : Message) :
      MemReach limit m → MemReach limit (m.pushMessage msg).1
  | next (m : Memory) :
      MemReach limit m → MemReach limit (m.nextMessage).1
  | shift (m : Memory) :
      MemReach limit m → MemReach limit m.shiftMessage

/-- Sum of the accounted sizes of the queued messages. -/
def sumSizes (l : List Message) : Nat :=
  (l.map msgSize).sum

/-- Conservation invariant: `used` is exactly the total accounted size of
the queued messages. -/
def memWF (m : Memory) : Prop :=
  m.used = (sumSizes m.buffer : Int)

/-!
## The dual-loop variant: `inputLoop`

One step of the system is one event observed by `inputLoop`: one iteration
of its `for` loop (receiving a message, seeing the inbound channel close,
or spinning while the limit is reached), an external `CloseAsync`, or a
concurrent `shiftMessage` performed by `outputLoop` after a consumer ack.
Producer-facing responses emitted during the step are returned as a list.
-/

/-- Local state of `inputLoop` together with the shared buffer. -/
structure InState where
  mem : Memory
  responsePending : Bool
  running : Bool
deriving DecidableEq, Repr

/-- Events driving `inputLoop`. -/
inductive InEvent where
  | accept (msg : Message)
  | inClosed
  | closeAsync
  | consumerShift
  | waitTick
deriving DecidableEq, Repr

/-- The pending-response flush at the top of a non-limited iteration:
`if responsePending { responsesOut <- NewSimpleResponse(nil) }`. -/
def inFlush (s : InState) : List Response × InState :=
  if s.responsePending then ([none], { s with responsePending := false })
  else ([], s)

/-- One step of `inputLoop` (plus the two external events).  `none` means
the event is not enabled in this state. -/
def inStep (s : InState) : InEvent → Option (List Response × InState)
  | InEvent.accept msg =>
      if s.running && !(s.mem.limitReached) then
        let p := inFlush s
        let q := p.2.mem.pushMessage msg
        if q.2 then
          some (p.1, { p.2 with mem := q.1, responsePending := true })
        else
          some (p.1 ++ [none], { p.2 with mem := q.1 })
      else none
  | InEvent.inClosed =>
      if s.running && !(s.mem.limitReached) then
        let p := inFlush s
        some (p.1, { p.2 with running := false })
      else none
  | InEvent.closeAsync =>
      some ([], { s with running := false })
  | InEvent.consumerShift =>
      some ([], { s with mem := s.mem.shiftMessage })
  | InEvent.waitTick =>
      if s.running && s.mem.limitReached then some ([], s) else none

/-- How many upstream transactions an event accepts (receives with
`open = true`). -/
def acceptCount : InEvent → Nat
  | InEvent.accept _ => 1
  | _ => 0

/-- A trace snapshot of the dual-loop system: current state, number of
transactions accepted so far, number of responses emitted on the
producer-facing `responsesOut` channel so far. -/
structure InTrace where
  st : InState
  accepted : Nat
  acked : Nat
deriving DecidableEq, Repr

/-- Executions of `inputLoop` from a fresh `NewMemory limit`. -/
inductive InReach (limit : Int) : InTrace → Prop where
  | init : InReach limit ⟨⟨NewMemory limit, false, true⟩, 0, 0⟩
  | step (t : InTrace) (e : InEvent) (out : List Response) (s2 : InState) :
      InReach limit t → inStep t.st e = some (out, s2) →
      InReach limit ⟨s2, t.accepted + acceptCount e, t.acked + out.length⟩

/-!
## The unified single-select variant: `loop`

Each event is one arm of the `select` statement; channel-nil guards become
enabledness conditions on the step function as in the source: the inbound
message channel is live only while no producer response is pending and the
limit is not reached, the producer response channel only while a response
is pending and the limit is not reached, the outbound message channel only
while no consumer response is awaited and the queue is nonempty.
-/

/-- State of the unified `loop`, including the nil-ness of the two inbound
channels (they are set to nil when found closed, never closing the loop). -/
structure LpState where
  mem : Memory
  responseInPending : Bool
  responseOutPending : Bool
  errs : List GoError
  msgsInOpen : Bool
  respInOpen : Bool
  running : Bool
deriving DecidableEq, Repr

/-- Events driving `loop`, one per select arm. -/
inductive LpEvent where
  | recvMsg (msg : Message)
  | msgsClosed
  | sendAck
  | sendMsg
  | recvRes (r : Response)
  | respClosed
  | sendErrors
  | close
deriving DecidableEq, Repr

/-- One step of `loop`: `none` when the arm's channel is nil (disabled) or
the loop has stopped; otherwise the successor state and the responses
emitted on the producer-facing `responsesOut` channel. -/
def lpStep (s : LpState) : LpEvent → Option (List Response × LpState)
  | LpEvent.recvMsg msg =>
      if s.running && !(s.mem.limitReached) && !s.responseOutPending
          && s.msgsInOpen then
        some ([], { s with mem := (s.mem.pushMessage msg).1,
                           responseOutPending := true })
      else none
  | LpEvent.msgsClosed =>
      if s.running && !(s.mem.limitReached) && !s.responseOutPending
          && s.msgsInOpen then
        some ([], { s with msgsInOpen := false })
      else none
  | LpEvent.sendAck =>
      if s.running && !(s.mem.limitReached) && s.responseOutPending then
        some ([none], { s with responseOutPending := false })
      else none
  | LpEvent.sendMsg =>
      if s.running && !s.responseInPending && !s.mem.buffer.isEmpty then
        some ([], { s with responseInPending := true })
      else none
  | LpEvent.recvRes r =>
      if s.running && s.respInOpen then
        match r with
        | some e =>
            some ([], { s with errs := s.errs ++ [e],
                               responseInPending := false })
        | none =>
            some ([], { s with mem := s.mem.shiftMessage,
                               responseInPending := false })
      else none
  | LpEvent.respClosed =>
      if s.running && s.respInOpen then
        some ([], { s with respInOpen := false, responseInPending := false })
      else none
  | LpEvent.sendErrors =>
      if s.running && !s.errs.isEmpty then
        some ([], { s with errs := [] })
      else none
  | LpEvent.close =>
      if s.running then some ([], { s with running := false }) else none

/-- How many upstream transactions a `loop` event accepts. -/
def lpAcceptCount : LpEvent → Nat
  | LpEvent.recvMsg _ => 1
  | _ => 0

/-- A trace snapshot of the unified-loop system. -/
structure LpTrace where
  st : LpState
  accepted : Nat
  acked : Nat
deriving DecidableEq, Repr

/-- Executions of `loop` from a fresh `NewMemory limit` with both inbound
channels assigned and open. -/
inductive LpReach (limit : Int) : LpTrace → Prop where
  | init : LpReach limit ⟨⟨NewMemory limit, false, false, [], true, true, true⟩, 0, 0⟩
  | step (t : LpTrace) (e : LpEvent) (out : List Response) (s2 : LpState) :
      LpReach limit t → lpStep t.st e = some (out, s2) →
      LpReach limit ⟨s2, t.accepted + lpAcceptCount e, t.acked + out.length⟩


/-!
## The consumer-facing loop: `outputLoop`

The Go map `errMap` is modelled as `Option (List GoError)`: `none` is the
nil map the declaration `var errMap map[error]struct{}` produces, `some l`
a live map with key list `l`.  Reading a nil map yields absent keys;
writing to one is a runtime panic, modelled as `Except.error ()`.
-/

/-- Local state of `outputLoop` with the shared buffer: the error map and
slice being accumulated, the message held for (re)delivery, and the
running flag. -/
structure OutState where
  mem : Memory
  errMap : Option (List GoError)
  errs : List GoError
  held : Option Message
  running : Bool
deriving DecidableEq, Repr

/-- What `outputLoop` sees on `responsesIn` after sending a message. -/
inductive ConsumerRes where
  | closed
  | ok
  | fail (e : GoError)
deriving DecidableEq, Repr

/-- Go map read `_, exists := errMap[e]`: absent on a nil map. -/
def goMapContains (m : Option (List GoError)) (e : GoError) : Bool :=
  match m with
  | none => false
  | some l => l.contains e

/-- One full iteration of `outputLoop`: fetch a message if none is held,
deliver it and handle the consumer response `res`, then try to flush the
accumulated errors (`readerReady` tells whether the `errorsChan` reader is
ready; if not, the `default` arm skips).  `Except.error ()` is a Go
runtime panic. -/
def outIter (s : OutState) (res : ConsumerRes) (readerReady : Bool) :
    Except Unit OutState :=
  let held :=
    match s.held with
    | some msg => some msg
    | none =>
        match (s.mem.nextMessage).2 with
        | Except.ok msg => some msg
        | Except.error _ => none
  let afterDeliver : Except Unit OutState :=
    match held with
    | none => Except.ok { s with held := none }
    | some msg =>
        match res with
        | ConsumerRes.closed =>
            Except.ok { s with held := some msg, running := false }
        | ConsumerRes.ok =>
            Except.ok { s with held := none, mem := s.mem.shiftMessage }
        | ConsumerRes.fail e =>
            if goMapContains s.errMap e then
              Except.ok { s with held := some msg }
            else
              match s.errMap with
              | none => Except.error ()
              | some l =>
                  Except.ok { s with held := some msg,
                                     errMap := some (l ++ [e]),
                                     errs := s.errs ++ [e] }
  match afterDeliver with
  | Except.error u => Except.error u
  | Except.ok s1 =>
      if s1.errs.isEmpty then Except.ok s1
      else if readerReady then
        Except.ok { s1 with errMap := some [], errs := [] }
      else Except.ok s1

/-- The state `outputLoop` starts in over a given buffer: both local
`var` declarations zero-valued (`errMap` nil, `errs` nil, `msg` nil). -/
def outInit (mem : Memory) : OutState :=
  { mem := mem, errMap := none, errs := [], held := none, running := true }

/-!
## Fallback output router

Modelled from the spec: the fallback router implementation
(`lib/output/fallback.go` / the try-output broker) is not under `src/`
— only its test `src/lib/output/fallback_test.go` is — so the router is
modelled from §4.3 of the spec: per inbound transaction, targets are
tried strictly in configured order on an independent pristine copy of the
original message; a transformation chain filtering the message to zero
parts counts as immediate success; on delivery success the transaction is
acknowledged as accepted and no later target is tried; on failure of the
last target the transaction is rejected with that last target's error.
-/

/-- One configured fallback target: its transformation chain and its
sink's delivery capability (`none` = accepted, `some e` = rejected). -/
structure FallbackTarget where
  transform : Message → Message
  deliver : Message → Option GoError

/-- Modelled from the spec: the outcome of one attempt at one target on a
pristine copy of `msg`: run the chain, succeed immediately if it filtered
the message to zero parts, otherwise attempt delivery. -/
def outcomeAt (t : FallbackTarget) (msg : Message) : Option GoError :=
  let m := t.transform msg
  if m.parts.isEmpty then none else t.deliver m

/-- Modelled from the spec: try the targets in order starting at index
`i`, returning the list of indices attempted (in attempt order) and the
final acknowledgement (`none` accepted, `some e` rejected with `e`). -/
def routeAux (msg : Message) (i : Nat) :
    List FallbackTarget → List Nat × Option GoError
  | [] => ([], none)
  | t :: rest =>
      match outcomeAt t msg with
      | none => ([i], none)
      | some e =>
          match rest with
          | [] => ([i], some e)
          | _ :: _ =>
              let r := routeAux msg (i + 1) rest
              (i :: r.1, r.2)

/-- Modelled from the spec: route one inbound message through the ordered
fallback targets. -/
def route (targets : List FallbackTarget) (msg : Message) :
    List Nat × Option GoError :=
  routeAux msg 0 targets

-- Concrete instances used to evaluate the definitions.

/-- A concrete one-part message whose part has capacity 3. -/
def cMsg : Message := ⟨[⟨[7], 3⟩]⟩

/-- A buffer holding `cMsg`, well under its limit. -/
def memOne : Memory := ⟨[cMsg], 100, 3, none, none⟩

/-- A buffer holding `cMsg` with its limit exceeded. -/
def memOver : Memory := ⟨[cMsg], 0, 3, none, none⟩

/-- A buffer with both channels already assigned. -/
def memChans : Memory := ⟨[], 10, 0, some 1, some 2⟩

/-- A fallback target that always rejects with error 1. -/
def tgtA : FallbackTarget := ⟨fun m => m, fun _ => some (GoError.errOther 1)⟩

/-- A fallback target that always rejects with error 2. -/
def tgtB : FallbackTarget := ⟨fun m => m, fun _ => some (GoError.errOther 2)⟩

/-- A fallback target that always accepts. -/
def tgtC : FallbackTarget := ⟨fun m => m, fun _ => none⟩

/-- `inputLoop` state after accepting `cMsg` over a zero limit and then
being closed: the deferred acknowledgement is still pending. -/
def cexSt : InState := ⟨⟨[cMsg], 0, 3, none, none⟩, true, false⟩

/-- Trace ending in `cexSt`: one transaction accepted, none acked. -/
def cexTrace : InTrace := ⟨cexSt, 1, 0⟩

/-- `inputLoop` trace after accepting `cMsg` over a zero limit, still
running with the acknowledgement deferred. -/
def ackTrace : InTrace := ⟨⟨⟨[cMsg], 0, 3, none, none⟩, true, true⟩, 1, 0⟩

-- Lemmas.

theorem pushMessage_buffer (m : Memory) (msg : Message) :
    (m.pushMessage msg).1.buffer = m.buffer ++ [msg] := rfl

theorem pushMessage_used (m : Memory) (msg : Message) :
    (m.pushMessage msg).1.used = m.used + (msgSize msg : Int) := rfl

theorem shiftMessage_buffer (m : Memory) :
    m.shiftMessage.buffer = m.buffer.tail := by
  cases m with
  | mk buffer limit used mi ri =>
      cases buffer <;> simp [Memory.shiftMessage]

theorem nextMessage_state (m : Memory) : (m.nextMessage).1 = m := by
  cases m with
  | mk buffer limit used mi ri =>
      cases buffer <;> simp [Memory.nextMessage]

theorem pushAll_buffer (m : Memory) (ms : List Message) :
    (pushAll m ms).buffer = m.buffer ++ ms := by
  induction ms generalizing m with
  | nil => simp [pushAll]
  | cons msg rest ih =>
      simp [pushAll] at ih ⊢
      rw [ih]
      simp [Memory.pushMessage]

theorem drainFuel_eq (b : List Message) (m : Memory) (h : m.buffer = b) :
    drainFuel b.length m = b := by
  induction b generalizing m with
  | nil => simp [drainFuel]
  | cons msg rest ih =>
      have hnext : (m.nextMessage).2 = Except.ok msg := by
        cases m with
        | mk buffer limit used mi ri =>
            simp at h
            simp [Memory.nextMessage, h]
      have hshift : m.shiftMessage.buffer = rest := by
        rw [shiftMessage_buffer, h]
        rfl
      simp [drainFuel, hnext, ih m.shiftMessage hshift]

theorem drain_eq_buffer (m : Memory) : drain m = m.buffer :=
  drainFuel_eq m.buffer m rfl

theorem sumSizes_append (a b : List Message) :
    sumSizes (a ++ b) = sumSizes a + sumSizes b := by
  simp [sumSizes]

theorem memWF_push (m : Memory) (msg : Message) (h : memWF m) :
    memWF (m.pushMessage msg).1 := by
  unfold memWF at h ⊢
  rw [pushMessage_used, pushMessage_buffer, h, sumSizes_append]
  simp [sumSizes, msgSize]

theorem memWF_shift (m : Memory) (h : memWF m) :
    memWF m.shiftMessage := by
  unfold memWF at h ⊢
  cases m with
  | mk buffer limit used mi ri =>
      cases buffer with
      | nil => exact h
      | cons msg rest =>
          simp [Memory.shiftMessage] at h ⊢
          rw [h]
          simp [sumSizes]

theorem memReach_wf {limit : Int} {m : Memory} (h : MemReach limit m) :
    memWF m := by
  induction h with
  | init => rfl
  | push m msg _ ih => exact memWF_push m msg ih
  | next m _ ih => rw [nextMessage_state]; exact ih
  | shift m _ ih => exact memWF_shift m ih

theorem inStep_outputs_success (s : InState) (e : InEvent)
    (out : List Response) (s2 : InState)
    (h : inStep s e = some (out, s2)) : ∀ r ∈ out, r = none := by
  cases e <;> simp only [inStep, inFlush] at h <;> repeat' split at h
  all_goals
    first
      | exact Option.noConfusion h
      | (rw [Option.some_inj] at h
         obtain ⟨rfl, rfl⟩ := Prod.mk.inj h
         simp)

theorem inStep_accept_guard (s : InState) (msg : Message)
    (h : s.mem.limitReached = true) : inStep s (InEvent.accept msg) = none := by
  simp [inStep, h]

theorem inStep_ack_delta (s : InState) (e : InEvent)
    (out : List Response) (s2 : InState)
    (h : inStep s e = some (out, s2)) :
    out.length + (if s2.responsePending then 1 else 0)
      = (if s.responsePending then 1 else 0) + acceptCount e := by
  cases e <;> simp only [inStep, inFlush] at h <;> repeat' split at h
  all_goals
    first
      | exact Option.noConfusion h
      | (rw [Option.some_inj] at h
         obtain ⟨rfl, rfl⟩ := Prod.mk.inj h
         simp_all [acceptCount])

theorem inReach_ack_invariant {limit : Int} {t : InTrace}
    (h : InReach limit t) :
    t.acked + (if t.st.responsePending then 1 else 0) = t.accepted := by
  induction h with
  | init => simp
  | step t e out s2 _ hstep ih =>
      have hd := inStep_ack_delta t.st e out s2 hstep
      simp only []
      omega

theorem lpStep_outputs_success (s : LpState) (e : LpEvent)
    (out : List Response) (s2 : LpState)
    (h : lpStep s e = some (out, s2)) : ∀ r ∈ out, r = none := by
  cases e <;> simp only [lpStep] at h <;> repeat' split at h
  all_goals
    first
      | exact Option.noConfusion h
      | (rw [Option.some_inj] at h
         obtain ⟨rfl, rfl⟩ := Prod.mk.inj h
         simp)

theorem lpStep_recvMsg_guard (s : LpState) (msg : Message)
    (h : s.mem.limitReached = true) : lpStep s (LpEvent.recvMsg msg) = none := by
  simp [lpStep, h]

theorem lpStep_ack_delta (s : LpState) (e : LpEvent)
    (out : List Response) (s2 : LpState)
    (h : lpStep s e = some (out, s2)) :
    out.length + (if s2.responseOutPending then 1 else 0)
      = (if s.responseOutPending then 1 else 0) + lpAcceptCount e := by
  cases e <;> simp only [lpStep] at h <;> repeat' split at h
  all_goals
    first
      | exact Option.noConfusion h
      | (rw [Option.some_inj] at h
         obtain ⟨rfl, rfl⟩ := Prod.mk.inj h
         simp_all [lpAcceptCount])

theorem lpReach_ack_invariant {limit : Int} {t : LpTrace}
    (h : LpReach limit t) :
    t.acked + (if t.st.responseOutPending then 1 else 0) = t.accepted := by
  induction h with
  | init => simp
  | step t e out s2 _ hstep ih =>
      have hd := lpStep_ack_delta t.st e out s2 hstep
      simp only []
      omega

theorem routeAux_cons_ok (msg : Message) (i : Nat) (u : FallbackTarget)
    (rest : List FallbackTarget) (h : outcomeAt u msg = none) :
    routeAux msg i (u :: rest) = ([i], none) := by
  cases rest <;> simp [routeAux, h]

theorem routeAux_cons_fail (msg : Message) (i : Nat) (u : FallbackTarget)
    (rest : List FallbackTarget) (e : GoError) (hne : rest ≠ [])
    (h : outcomeAt u msg = some e) :
    routeAux msg i (u :: rest)
      = (i :: (routeAux msg (i + 1) rest).1, (routeAux msg (i + 1) rest).2) := by
  cases rest with
  | nil => exact absurd rfl hne
  | cons w ws => simp [routeAux, h]

theorem routeAux_first_ok (msg : Message) (pre : List FallbackTarget)
    (t : FallbackTarget) (post : List FallbackTarget) (i : Nat)
    (hpre : ∀ u ∈ pre, (outcomeAt u msg).isSome)
    (ht : outcomeAt t msg = none) :
    routeAux msg i (pre ++ t :: post) = (List.range' i (pre.length + 1), none) := by
  induction pre generalizing i with
  | nil =>
      rw [List.nil_append, routeAux_cons_ok msg i t post ht]
      simp [List.range'_succ]
  | cons u pre ih =>
      obtain ⟨e, he⟩ := Option.isSome_iff_exists.mp (hpre u (by simp))
      have hrest : pre ++ t :: post ≠ [] := by
        cases pre <;> simp
      rw [List.cons_append,
          routeAux_cons_fail msg i u (pre ++ t :: post) e hrest he,
          ih (i + 1) (fun v hv => hpre v (by simp [hv]))]
      simp [List.range'_succ]

theorem routeAux_all_fail (msg : Message) (ts : List FallbackTarget)
    (i : Nat) (hne : ts ≠ [])
    (hall : ∀ u ∈ ts, (outcomeAt u msg).isSome) :
    routeAux msg i ts = (List.range' i ts.length, outcomeAt (ts.getLast hne) msg) := by
  induction ts generalizing i with
  | nil => exact absurd rfl hne
  | cons t rest ih =>
      obtain ⟨e, he⟩ := Option.isSome_iff_exists.mp (hall t (by simp))
      cases rest with
      | nil =>
          simp [routeAux, he, List.range'_succ]
      | cons w ws =>
          have hne2 : w :: ws ≠ [] := by simp
          rw [routeAux_cons_fail msg i t _ e hne2 he,
              ih (i + 1) hne2 (fun v hv => hall v (by simp [hv])),
              List.getLast_cons hne2]
          simp [List.range'_succ]

-- Claim theorems.

/-- Claim C1: for every sequence of messages pushed into the Memory
buffer with no intervening consumption, repeated nextMessage/shiftMessage
returns and removes the messages in exactly the push order; pushing
appends at the tail and shifting only ever removes the head, so entries
are never reordered. -/
theorem claim_C1_fifo (limit : Int) (ms : List Message) :
    drain (pushAll (NewMemory limit) ms) = ms
    ∧ (pushAll (NewMemory limit) ms).buffer = ms
    ∧ ∀ m : Memory, m.shiftMessage.buffer = m.buffer.tail := by
  have hb : (pushAll (NewMemory limit) ms).buffer = ms := by
    rw [pushAll_buffer]
    rfl
  exact ⟨by rw [drain_eq_buffer, hb], hb, shiftMessage_buffer⟩

/-- Claim C2: in every buffer state reachable from NewMemory by
pushMessage, nextMessage and shiftMessage calls, `used` equals the sum of
the accounted sizes of the stored messages and is never negative. -/
theorem claim_C2_conservation (limit : Int) (m : Memory)
    (h : MemReach limit m) :
    m.used = (sumSizes m.buffer : Int) ∧ 0 ≤ m.used := by
  have hw := memReach_wf h
  refine ⟨hw, ?_⟩
  rw [hw]
  exact Int.natCast_nonneg _

/-- Witness for C2 at a concrete reachable state: push one message into
a fresh buffer of limit 2, then shift it back out. -/
theorem claim_C2_witness :
    ((NewMemory 2).pushMessage cMsg).1.shiftMessage.used
        = (sumSizes ((NewMemory 2).pushMessage cMsg).1.shiftMessage.buffer : Int)
    ∧ 0 ≤ ((NewMemory 2).pushMessage cMsg).1.shiftMessage.used :=
  claim_C2_conservation 2 _
    (MemReach.shift _ (MemReach.push _ cMsg MemReach.init))

/-- Claim C3: pushMessage computes the message size as the sum of the
part capacities, appends the message at the tail, increments `used` by
that size, leaves the limit unchanged, and returns true exactly when the
incremented `used` strictly exceeds the limit. -/
theorem claim_C3_push (m : Memory) (msg : Message) :
    msgSize msg = (msg.parts.map MsgPart.cap).sum
    ∧ (m.pushMessage msg).1.buffer = m.buffer ++ [msg]
    ∧ (m.pushMessage msg).1.used = m.used + (msgSize msg : Int)
    ∧ (m.pushMessage msg).1.limit = m.limit
    ∧ ((m.pushMessage msg).2 = true ↔ (m.pushMessage msg).1.used > m.limit) := by
  refine ⟨rfl, rfl, rfl, rfl, ?_⟩
  simp [Memory.pushMessage]

/-- Claim C4: in both control-loop variants, while `used` exceeds the
limit the producer arm is disabled (no message is accepted), and every
response ever emitted on the producer-facing response channel is the
success response: a push is delayed, never rejected. -/
theorem claim_C4_backpressure :
    (∀ (s : InState) (msg : Message), s.mem.limitReached = true →
        inStep s (InEvent.accept msg) = none)
    ∧ (∀ (s : InState) (e : InEvent) (out : List Response) (s2 : InState),
        inStep s e = some (out, s2) → ∀ r ∈ out, r = none)
    ∧ (∀ (s : LpState) (msg : Message), s.mem.limitReached = true →
        lpStep s (LpEvent.recvMsg msg) = none)
    ∧ (∀ (s : LpState) (e : LpEvent) (out : List Response) (s2 : LpState),
        lpStep s e = some (out, s2) → ∀ r ∈ out, r = none) :=
  ⟨inStep_accept_guard, inStep_outputs_success,
   lpStep_recvMsg_guard, lpStep_outputs_success⟩

/-- Witness for C4: over the limit, both loops refuse the producer arm;
a concrete enabled step (flushing a deferred ack) emits only successes. -/
theorem claim_C4_witness :
    inStep ⟨memOver, false, true⟩ (InEvent.accept cMsg) = none
    ∧ lpStep ⟨memOver, false, false, [], true, true, true⟩
        (LpEvent.recvMsg cMsg) = none
    ∧ (∀ r ∈ [(none : Response)], r = none) :=
  ⟨claim_C4_backpressure.1 _ cMsg (by decide),
   claim_C4_backpressure.2.2.1 _ cMsg (by decide),
   claim_C4_backpressure.2.1 ⟨NewMemory 0, true, true⟩ InEvent.inClosed
     [none] ⟨NewMemory 0, false, false⟩ (by decide)⟩

/-- Counterexample to claim C5 as stated: an execution of `inputLoop`
with limit 0 that accepts one transaction (whose push exceeds the limit,
so its acknowledgement is deferred) and is then shut down by CloseAsync;
the loop terminates with the transaction accepted but zero
acknowledgements emitted, so the ack count is strictly below the accepted
count and `responsesOut` is closed without resolving it. -/
theorem claim_C5_counterexample :
    InReach 0 cexTrace ∧ cexTrace.st.running = false
      ∧ cexTrace.acked < cexTrace.accepted := by
  refine ⟨?_, rfl, by decide⟩
  have h0 : InReach 0 ⟨⟨NewMemory 0, false, true⟩, 0, 0⟩ := InReach.init
  have h1 := InReach.step _ (InEvent.accept cMsg) []
    ⟨⟨[cMsg], 0, 3, none, none⟩, true, true⟩ h0 (by decide)
  have h2 := InReach.step _ InEvent.closeAsync [] cexSt h1 (by decide)
  exact h2

/-- Claim C5 (amended): in every execution of either control-loop
variant, each accepted transaction is acknowledged at most once — never
twice: at every point the number of responses emitted on the
producer-facing channel plus the pending-response flag (0 or 1) equals
the number of transactions accepted, so every accepted transaction is
acknowledged exactly once unless the buffer shuts down while its
acknowledgement is still deferred by backpressure. -/
theorem claim_C5_at_most_one_ack :
    (∀ (limit : Int) (t : InTrace), InReach limit t →
        t.acked + (if t.st.responsePending then 1 else 0) = t.accepted)
    ∧ (∀ (limit : Int) (t : LpTrace), LpReach limit t →
        t.acked + (if t.st.responseOutPending then 1 else 0) = t.accepted) :=
  ⟨fun _ _ h => inReach_ack_invariant h, fun _ _ h => lpReach_ack_invariant h⟩

/-- Witness for C5 at a concrete trace: after accepting one over-limit
message the ack ledger balances (0 emitted + 1 pending = 1 accepted). -/
theorem claim_C5_witness :
    (ackTrace.acked + (if ackTrace.st.responsePending then 1 else 0)
        = ackTrace.accepted)
    ∧ ((0 : Nat) + (if (false : Bool) then 1 else 0) = 0) :=
  ⟨claim_C5_at_most_one_ack.1 0 ackTrace
    (InReach.step _ (InEvent.accept cMsg) []
      ⟨⟨[cMsg], 0, 3, none, none⟩, true, true⟩ InReach.init (by decide)),
   claim_C5_at_most_one_ack.2 0 ⟨⟨NewMemory 0, false, false, [], true, true, true⟩, 0, 0⟩
    LpReach.init⟩

/-- Claim C6 (router modelled from the spec): the fallback router
attempts targets strictly in configured order and stops at the first
accepting target: if every target before position `pre.length` rejects
and the target there accepts, the attempted indices are exactly
0,1,…,pre.length in order and the transaction is accepted. -/
theorem claim_C6_fallback_order (targets : List FallbackTarget)
    (msg : Message) (pre : List FallbackTarget) (t : FallbackTarget)
    (post : List FallbackTarget) (hsplit : targets = pre ++ t :: post)
    (hpre : ∀ u ∈ pre, (outcomeAt u msg).isSome)
    (ht : outcomeAt t msg = none) :
    route targets msg = (List.range (pre.length + 1), none) := by
  subst hsplit
  rw [route, routeAux_first_ok msg pre t post 0 hpre ht,
      List.range_eq_range']

/-- Witness for C6: with targets [A,B,C] where A and B reject and C
accepts, the attempt sequence is exactly A then B then C and the
transaction is accepted. -/
theorem claim_C6_witness :
    route [tgtA, tgtB, tgtC] cMsg = ([0, 1, 2], none) := by
  have h := claim_C6_fallback_order [tgtA, tgtB, tgtC] cMsg [tgtA, tgtB]
    tgtC [] rfl
    (by
      intro u hu
      simp only [List.mem_cons, List.not_mem_nil, or_false] at hu
      rcases hu with rfl | rfl <;> decide)
    (by decide)
  rw [h]
  decide

/-- Claim C7 (router modelled from the spec): when every target rejects,
the router attempts all of them in order and resolves the inbound
transaction as rejected carrying exactly the last target's error. -/
theorem claim_C7_fallback_exhaustion (targets : List FallbackTarget)
    (msg : Message) (hne : targets ≠ [])
    (hall : ∀ u ∈ targets, (outcomeAt u msg).isSome) :
    route targets msg
        = (List.range targets.length, outcomeAt (targets.getLast hne) msg)
    ∧ (route targets msg).2.isSome := by
  have h := routeAux_all_fail msg targets 0 hne hall
  rw [route, h, List.range_eq_range']
  exact ⟨rfl, by simpa using hall _ (List.getLast_mem hne)⟩

/-- Witness for C7: two targets that both reject yield a rejection with
the second target's error after attempting 0 then 1. -/
theorem claim_C7_witness :
    route [tgtA, tgtB] cMsg = ([0, 1], some (GoError.errOther 2)) := by
  have h := (claim_C7_fallback_exhaustion [tgtA, tgtB] cMsg (by simp)
    (by
      intro u hu
      simp only [List.mem_cons, List.not_mem_nil, or_false] at hu
      rcases hu with rfl | rfl <;> decide)).1
  rw [h]
  decide

/-- Claim C8 evaluated at the failing input: `outputLoop` starts with the
zero-valued local `var errMap map[error]struct{}` (a nil map).  On the
very first delivery failure the code executes
`errMap[res.Error()] = struct{}{}`, an assignment to an entry of a nil
map, which is a Go runtime panic — the error is never accumulated and the
retry loop dies. -/
theorem claim_C8_nil_map_panic :
    outIter (outInit memOne) (ConsumerRes.fail (GoError.errOther 5)) false
      = Except.error () := rfl

/-- Claim C9: nextMessage returns ErrOutOfBounds exactly when the queue
is empty and otherwise returns the head, in both cases leaving the whole
state (queue and `used`) untouched; shiftMessage on an empty buffer is a
no-op. -/
theorem claim_C9_next_shift (m : Memory) :
    ((m.nextMessage).2 = Except.error GoError.ErrOutOfBounds ↔ m.buffer = [])
    ∧ (∀ msg rest, m.buffer = msg :: rest → (m.nextMessage).2 = Except.ok msg)
    ∧ (m.nextMessage).1 = m
    ∧ (m.buffer = [] → m.shiftMessage = m) := by
  cases m with
  | mk buffer limit used mi ri =>
      cases buffer with
      | nil =>
          refine ⟨by simp [Memory.nextMessage], ?_, rfl, fun _ => rfl⟩
          intro msg rest h
          exact absurd h (by simp)
      | cons msg rest =>
          refine ⟨by simp [Memory.nextMessage], ?_, rfl, by simp⟩
          intro msg2 rest2 h
          simp only [List.cons.injEq] at h
          simp [Memory.nextMessage, h.1]

/-- Witness for C9 at concrete states: an empty buffer yields
ErrOutOfBounds and is untouched by shiftMessage; a one-message buffer
yields its head. -/
theorem claim_C9_witness :
    ((NewMemory 5).nextMessage).2 = Except.error GoError.ErrOutOfBounds
    ∧ (NewMemory 5).shiftMessage = NewMemory 5
    ∧ (memOne.nextMessage).2 = Except.ok cMsg :=
  ⟨(claim_C9_next_shift (NewMemory 5)).1.mpr rfl,
   (claim_C9_next_shift (NewMemory 5)).2.2.2 rfl,
   (claim_C9_next_shift memOne).2.1 cMsg [] rfl⟩

/-- Claim C10: once an input channel is assigned, a second StartReceiving
returns ErrAlreadyStarted and leaves the state — in particular the
previously assigned channel — unchanged, and likewise StartListening for
the response channel. -/
theorem claim_C10_already_started :
    (∀ (m : Memory) (c ch : Nat), m.messagesIn = some c →
        m.StartReceiving ch = (m, some GoError.ErrAlreadyStarted))
    ∧ (∀ (m : Memory) (c ch : Nat), m.responsesIn = some c →
        m.StartListening ch = (m, some GoError.ErrAlreadyStarted)) := by
  constructor <;>
    · intro m c ch h
      cases m with
      | mk buffer limit used mi ri =>
          simp only at h
          simp [Memory.StartReceiving, Memory.StartListening, h]

/-- Witness for C10 at a concrete state with both channels assigned. -/
theorem claim_C10_witness :
    memChans.StartReceiving 7 = (memChans, some GoError.ErrAlreadyStarted)
    ∧ memChans.StartListening 8 = (memChans, some GoError.ErrAlreadyStarted) :=
  ⟨claim_C10_already_started.1 memChans 1 7 rfl,
   claim_C10_already_started.2 memChans 2 8 rfl⟩
